import Mathlib

/-!
Verification development for the cache-dictionary core
(`src/Dictionaries/CacheDictionary.cpp`).

Shallow embedding conventions:
* simple keys (`UInt64`) are modelled as `Nat`, attribute values as `Nat`;
* a column (`IColumn`) is a `List Value`, a column set (`MutableColumns`)
  is a `List (List Value)` aligned with the dictionary structure;
* the `HashMap<KeyType, size_t>` index maps are association lists
  `List (Key × Nat)` where the first matching entry wins, so consing an
  entry at the front models `operator[]` overwrite;
* the storage call `fetchColumnsForKeys` is an external collaborator
  (its implementation is not part of this translation unit), so its
  result is a parameter of the query pipeline (`FetchResult`), and the
  facts the storage contract guarantees about it are explicit
  hypotheses;
* `size_t` arithmetic: `not_found_keys_size = keys.size() - (expired +
  found)` wraps modulo 2^64, so `not_found_keys_size == 0` holds exactly
  when `keys.size() = expired + found` (all sizes are far below 2^64);
  the branch conditions are modelled through that equality.
-/

namespace CacheDictionary

abbrev Key := Nat
abbrev Value := Nat

/-- Association-list lookup modelling `HashMap<KeyType, size_t>::find`;
the first matching entry wins. -/
def lookupIndex (index : List (Key × Nat)) (key : Key) : Option Nat :=
  match index with
  | [] => none
  | p :: rest => if p.1 = key then some p.2 else lookupIndex rest key

/-- One attribute of the dictionary structure: its name and the
null/default sentinel (`DictionaryAttribute::null_value`). -/
structure DictionaryAttribute where
  name : Nat
  null_value : Value
deriving DecidableEq

abbrev DictionaryStructure := List DictionaryAttribute

/-- Requested-attribute mask of `DictionaryStorageFetchRequest`:
position `i` is `true` iff attribute `i` of the structure was requested
(`shouldFillResultColumnWithIndex`). -/
def makeRequestMask (dict_struct : DictionaryStructure) (attribute_names : List Nat) : List Bool :=
  dict_struct.map fun a => decide (a.name ∈ attribute_names)

/-- Projection `DictionaryStorageFetchRequest::filterRequestedColumns`:
keep the columns at requested positions, in order. -/
def filterRequestedColumns (mask : List Bool) (columns : List (List Value)) : List (List Value) :=
  match mask, columns with
  | [], _ => []
  | _ :: _, [] => []
  | m :: mask_rest, c :: columns_rest =>
    if m then c :: filterRequestedColumns mask_rest columns_rest
    else filterRequestedColumns mask_rest columns_rest

/-- Result of `ICacheDictionaryStorage::fetchColumnsForKeys`: the
fetched column set (one row per found-or-expired slot), the two key→row
index maps, and the keys that must be refreshed. -/
structure FetchResult where
  fetched_columns : List (List Value)
  found_keys_to_fetched_columns_index : List (Key × Nat)
  expired_keys_to_fetched_columns_index : List (Key × Nat)
  not_found_or_expired_keys : List Key

/-- A `DefaultValueProvider`: the schema null value plus the caller's
optional default column. -/
structure DefaultValueProvider where
  null_value : Value
  default_values_column : Option (List Value)
deriving DecidableEq

/-- Method `DefaultValueProvider::getDefaultValue`: the default column's
row when a default column was supplied, the null sentinel otherwise. -/
def DefaultValueProvider.getDefaultValue (p : DefaultValueProvider) (index : Nat) : Value :=
  match p.default_values_column with
  | some column => column.getD index p.null_value
  | none => p.null_value

/-- Construction of the `default_value_providers` vector in
`getColumnsImpl` (lines 407-420): walk the dictionary structure and
consume the caller's default columns at requested attributes. -/
def buildDefaultValueProviders
    (dict_struct : DictionaryStructure) (attribute_names : List Nat)
    (default_values_columns : List (Option (List Value))) : List DefaultValueProvider :=
  match dict_struct with
  | [] => []
  | a :: rest =>
    if a.name ∈ attribute_names then
      ⟨a.null_value, default_values_columns.headD none⟩ ::
        buildDefaultValueProviders rest attribute_names default_values_columns.tail
    else
      ⟨a.null_value, none⟩ :: buildDefaultValueProviders rest attribute_names default_values_columns

/-- Inner loop of `aggregateColumns` for one requested attribute
(lines 592-614): per key, storage value if the key is in the
found-in-storage index, else the during-update value if it is in the
update index, else the caller's default at the key position. -/
def aggregateColumnsAttr
    (fetched_column_from_storage : List Value)
    (found_keys_to_fetched_columns_from_storage_index : List (Key × Nat))
    (fetched_column_during_update : List Value)
    (found_keys_to_fetched_columns_during_update_index : List (Key × Nat))
    (default_value_provider : DefaultValueProvider) :
    List Key → Nat → List Value
  | [], _ => []
  | key :: rest, key_index =>
    let value :=
      match lookupIndex found_keys_to_fetched_columns_from_storage_index key with
      | some row => fetched_column_from_storage.getD row 0
      | none =>
        match lookupIndex found_keys_to_fetched_columns_during_update_index key with
        | some row => fetched_column_during_update.getD row 0
        | none => default_value_provider.getDefaultValue key_index
    value :: aggregateColumnsAttr fetched_column_from_storage
        found_keys_to_fetched_columns_from_storage_index
        fetched_column_during_update
        found_keys_to_fetched_columns_during_update_index
        default_value_provider rest (key_index + 1)

/-- Method `CacheDictionary::aggregateColumns` (lines 570-618): merge
storage rows, update rows and defaults into the caller's key order, one
output column per structure attribute (unrequested positions stay
empty). -/
def aggregateColumns (keys : List Key) :
    List Bool → List (List Value) → List (Key × Nat) →
    List (List Value) → List (Key × Nat) → List DefaultValueProvider → List (List Value)
  | [], _, _, _, _, _ => []
  | m :: mask_rest, storage_columns, found_index, update_columns, update_index, providers =>
    (if m then
      aggregateColumnsAttr (storage_columns.headD []) found_index
        (update_columns.headD []) update_index (providers.headD ⟨0, none⟩) keys 0
     else []) ::
      aggregateColumns keys mask_rest storage_columns.tail found_index
        update_columns.tail update_index providers.tail

/-- Inner loop of `aggregateColumnsInOrderOfKeys` for one requested
attribute (lines 542-564): per key, emit the fetched row when the key is
in the expired index (checked first) or in the found index; keys in
neither index produce no row. -/
def aggregateColumnsInOrderOfKeysAttr
    (fetched_column : List Value)
    (found_keys_to_fetched_columns_index : List (Key × Nat))
    (expired_keys_to_fetched_columns_index : List (Key × Nat)) :
    List Key → List Value
  | [] => []
  | key :: rest =>
    match lookupIndex expired_keys_to_fetched_columns_index key with
    | some row =>
      fetched_column.getD row 0 ::
        aggregateColumnsInOrderOfKeysAttr fetched_column
          found_keys_to_fetched_columns_index expired_keys_to_fetched_columns_index rest
    | none =>
      match lookupIndex found_keys_to_fetched_columns_index key with
      | some row =>
        fetched_column.getD row 0 ::
          aggregateColumnsInOrderOfKeysAttr fetched_column
            found_keys_to_fetched_columns_index expired_keys_to_fetched_columns_index rest
      | none =>
        aggregateColumnsInOrderOfKeysAttr fetched_column
          found_keys_to_fetched_columns_index expired_keys_to_fetched_columns_index rest

/-- Method `CacheDictionary::aggregateColumnsInOrderOfKeys`
(lines 524-568): reorder the storage's fetched columns into the
caller's key order using the found and expired indexes. -/
def aggregateColumnsInOrderOfKeys (keys : List Key) :
    List Bool → List (List Value) → List (Key × Nat) → List (Key × Nat) → List (List Value)
  | [], _, _, _ => []
  | m :: mask_rest, fetched_columns, found_index, expired_index =>
    (if m then
      aggregateColumnsInOrderOfKeysAttr (fetched_columns.headD []) found_index expired_index keys
     else []) ::
      aggregateColumnsInOrderOfKeys keys mask_rest fetched_columns.tail found_index expired_index

/-- Outcome of one query through `getColumnsImpl`: the returned columns
plus whether an update unit was pushed to the queue and whether the
query blocked on it. -/
structure ColumnsQueryResult where
  columns : List (List Value)
  submitted_update : Bool
  waited_for_update : Bool

/-- Method `CacheDictionary::getColumnsImpl` (lines 306-432).  The
storage lookup result `fr` and the update unit's success payload
(`update_index`, `update_columns`, used only on the sync path) are
parameters; the three branches mirror lines 358-405. -/
def getColumnsImpl (dict_struct : DictionaryStructure) (attribute_names : List Nat)
    (keys : List Key) (default_values_columns : List (Option (List Value)))
    (fr : FetchResult) (allow_read_expired_keys : Bool)
    (returnsInKeyOrder : Bool)
    (update_index : List (Key × Nat)) (update_columns : List (List Value)) :
    ColumnsQueryResult :=
  let mask := makeRequestMask dict_struct attribute_names
  let expired_keys_size := fr.expired_keys_to_fetched_columns_index.length
  let found_keys_size := fr.found_keys_to_fetched_columns_index.length
  if keys.length = expired_keys_size + found_keys_size ∧ expired_keys_size = 0 then
    { columns :=
        if returnsInKeyOrder then filterRequestedColumns mask fr.fetched_columns
        else
          filterRequestedColumns mask
            (aggregateColumnsInOrderOfKeys keys mask fr.fetched_columns
              fr.found_keys_to_fetched_columns_index
              fr.expired_keys_to_fetched_columns_index),
      submitted_update := false,
      waited_for_update := false }
  else if keys.length = expired_keys_size + found_keys_size ∧
      0 < expired_keys_size ∧ allow_read_expired_keys = true then
    { columns :=
        if returnsInKeyOrder then filterRequestedColumns mask fr.fetched_columns
        else
          filterRequestedColumns mask
            (aggregateColumnsInOrderOfKeys keys mask fr.fetched_columns
              fr.found_keys_to_fetched_columns_index
              fr.expired_keys_to_fetched_columns_index),
      submitted_update := true,
      waited_for_update := false }
  else
    { columns :=
        filterRequestedColumns mask
          (aggregateColumns keys mask fr.fetched_columns
            fr.found_keys_to_fetched_columns_index
            update_columns update_index
            (buildDefaultValueProviders dict_struct attribute_names default_values_columns)),
      submitted_update := true,
      waited_for_update := true }

/-- Method `CacheDictionary::getColumns` (lines 293-304): extract the
keys from the key columns (for simple keys, the first key column) and
delegate to `getColumnsImpl`. -/
def getColumns (dict_struct : DictionaryStructure) (attribute_names : List Nat)
    (key_columns : List (List Key)) (default_values_columns : List (Option (List Value)))
    (fr : FetchResult) (allow_read_expired_keys : Bool) (returnsInKeyOrder : Bool)
    (update_index : List (Key × Nat)) (update_columns : List (List Value)) :
    List (List Value) :=
  (getColumnsImpl dict_struct attribute_names (key_columns.headD [])
    default_values_columns fr allow_read_expired_keys returnsInKeyOrder
    update_index update_columns).columns

/-- Method `CacheDictionary::getColumn` (lines 282-291): call
`getColumns` with singleton attribute and default lists and take the
front column. -/
def getColumn (dict_struct : DictionaryStructure) (attribute_name : Nat)
    (key_columns : List (List Key)) (default_values_column : Option (List Value))
    (fr : FetchResult) (allow_read_expired_keys : Bool) (returnsInKeyOrder : Bool)
    (update_index : List (Key × Nat)) (update_columns : List (List Value)) :
    Option (List Value) :=
  (getColumns dict_struct [attribute_name] key_columns [default_values_column]
    fr allow_read_expired_keys returnsInKeyOrder update_index update_columns).head?

/-- Outcome of one query through `hasKeys`: the boolean column plus
whether an update unit was pushed and whether the query blocked on
it. -/
structure HasKeysResult where
  column : List Bool
  submitted_update : Bool
  waited_for_update : Bool

/-- Method `CacheDictionary::hasKeys` (lines 434-522).  Note the third
branch is guarded by `not_found_keys_size > 0`: when all keys are found
or expired but expired reads are disallowed, no branch fires and the
final loop runs with the empty local update index. -/
def hasKeys (keys : List Key) (fr : FetchResult) (allow_read_expired_keys : Bool)
    (update_index : List (Key × Nat)) : HasKeysResult :=
  let expired_keys_size := fr.expired_keys_to_fetched_columns_index.length
  let found_keys_size := fr.found_keys_to_fetched_columns_index.length
  if keys.length = found_keys_size + expired_keys_size ∧ expired_keys_size = 0 then
    { column := keys.map fun _ => true,
      submitted_update := false, waited_for_update := false }
  else if keys.length = found_keys_size + expired_keys_size ∧
      0 < expired_keys_size ∧ allow_read_expired_keys = true then
    { column := keys.map fun _ => true,
      submitted_update := true, waited_for_update := false }
  else if ¬ keys.length = found_keys_size + expired_keys_size then
    { column := keys.map fun key =>
        (lookupIndex fr.found_keys_to_fetched_columns_index key).isSome ||
          (lookupIndex update_index key).isSome,
      submitted_update := true, waited_for_update := true }
  else
    { column := keys.map fun key =>
        (lookupIndex fr.found_keys_to_fetched_columns_index key).isSome,
      submitted_update := false, waited_for_update := false }

/-! Worker update (`CacheDictionary::update`, lines 634-773).  The
backoff gate and state transitions are modelled over an abstract clock
(`Nat` time points, `0` the zero time point) and an abstract jittered
duration function standing for `calculateDurationWithBackoff`; the
external source's stream is modelled as the list of blocks it yields,
each block already split into its key column and its attribute
columns. -/

/-- Backoff controller state: `error_count`, `last_exception` and
`backoff_end_time` of `CacheDictionary`. -/
structure BackoffState where
  error_count : Nat
  last_exception : Option Nat
  backoff_end_time : Nat
deriving DecidableEq

/-- Errors a worker update can surface to its waiters. -/
inductive UpdateError where
  | suppressedByBackoff (deadline : Nat)
  | updateFailed (e : Nat)
deriving DecidableEq

/-- Outcome of one worker update pass: whether the source fetch was
attempted, the error (if any) raised to the waiters, and the backoff
state afterwards. -/
structure UpdateStepResult where
  attempted_fetch : Bool
  error : Option UpdateError
  state : BackoffState
deriving DecidableEq

/-- Backoff gate and state transition of `CacheDictionary::update`
(lines 662, 730-732, 736-758, 765-772): fetch only when
`now > backoff_end_time`; on success reset all three fields; on failure
increment `error_count`, store the exception and move the deadline to
`now` plus the jittered duration of the new `error_count`; when the
gate is closed, fail with the suppression error carrying the current
deadline and touch nothing. -/
def updateStep (now : Nat) (fetch : Except Nat Unit) (durationWithBackoff : Nat → Nat)
    (st : BackoffState) : UpdateStepResult :=
  if st.backoff_end_time < now then
    match fetch with
    | Except.ok _ =>
      { attempted_fetch := true, error := none,
        state := { error_count := 0, last_exception := none, backoff_end_time := 0 } }
    | Except.error e =>
      { attempted_fetch := true, error := some (UpdateError.updateFailed e),
        state :=
          { error_count := st.error_count + 1,
            last_exception := some e,
            backoff_end_time := now + durationWithBackoff (st.error_count + 1) } }
  else
    { attempted_fetch := false,
      error := some (UpdateError.suppressedByBackoff st.backoff_end_time),
      state := st }

/-- One block read from the source stream, already split as in
lines 690-703: the extracted keys and the remaining attribute columns
in schema order. -/
structure SourceBlock where
  keys : List Key
  columns : List (List Value)

/-- Per-block column accumulation (lines 707-716): for every requested
attribute, append the first `key_count` rows of the block's column to
the unit's accumulated column (`insertRangeFrom(*column, 0,
keys.size())`); unrequested positions are left untouched. -/
def appendBlockColumns :
    List Bool → List (List Value) → List (List Value) → Nat → List (List Value)
  | [], _, _, _ => []
  | m :: mask_rest, accumulated, block_columns, key_count =>
    (if m then accumulated.headD [] ++ (block_columns.headD []).take key_count
     else accumulated.headD []) ::
      appendBlockColumns mask_rest accumulated.tail block_columns.tail key_count

/-- Per-block index accumulation (lines 718-723): for the i-th key of
the block, record row `column_offset + i` where `column_offset` is the
row count accumulated before this block; consing at the front models
`HashMap::operator[]` overwrite. -/
def addKeysToIndex : List (Key × Nat) → List Key → Nat → List (Key × Nat)
  | index, [], _ => index
  | index, key :: rest, offset => addKeysToIndex ((key, offset) :: index) rest (offset + 1)

/-- Stream-draining loop of `CacheDictionary::update` (lines 688-726):
per block, append the attribute rows to the unit's columns, extend
`requested_keys_to_fetched_columns_during_update_index`, and advance
`found_num` by the block's key count.  Returns the final index, the
accumulated columns and the final `found_num`. -/
def updateLoop (mask : List Bool) :
    List SourceBlock → Nat → List (Key × Nat) → List (List Value) →
    List (Key × Nat) × List (List Value) × Nat
  | [], found_num, index, accumulated => (index, accumulated, found_num)
  | b :: rest, found_num, index, accumulated =>
    updateLoop mask rest (found_num + b.keys.length)
      (addKeysToIndex index b.keys found_num)
      (appendBlockColumns mask accumulated b.columns b.keys.length)

/-- Successful-fetch body of `CacheDictionary::update` for one unit:
drain the whole stream starting from an empty index, empty accumulated
columns and `found_num = 0`.  The unit's requested keys are passed to
the source (`loadIds`) only; the loop itself never consults them. -/
def update (requested_simple_keys : List Key) (mask : List Bool)
    (source_blocks : List SourceBlock) :
    List (Key × Nat) × List (List Value) × Nat :=
  updateLoop mask source_blocks 0 [] (mask.map fun _ => [])

/-- All keys the source returned across the stream. -/
def sourceKeys (source_blocks : List SourceBlock) : List Key :=
  source_blocks.flatMap fun b => b.keys

/-! Hierarchy primitives (`isInImpl`, lines 159-223, and
`isInConstantVector`, lines 238-264).  `toParent` goes through the
query pipeline on the hierarchical attribute; for the traversal claims
it is modelled as a pure parent map `parentOf : Key → Key` over the
dictionary contents at query time.  `0xFF` appears as `255`
("not calculated"). -/

/-- One pass of the while-loop of `isInImpl` (lines 179-212) over the
remaining `out` entries.  `parents_index` and `new_children_index`
mirror the cursors of the loop; `children_buffer` is the reused
`children` array (stale entries from the previous pass are what the
loop-detection branch reads).  Returns the rewritten `out` suffix, the
updated buffer and the final `new_children_index`. -/
def isInPass (null_value : Key) (ancestorAt : Nat → Key) :
    List Nat → List Key → Nat → Nat → List Key → List Nat × List Key × Nat
  | [], _, _, new_children_index, children_buffer => ([], children_buffer, new_children_index)
  | o :: out_rest, parents, parents_index, new_children_index, children_buffer =>
    if o ≠ 255 then
      let r := isInPass null_value ancestorAt out_rest parents parents_index
        new_children_index children_buffer
      (o :: r.1, r.2.1, r.2.2)
    else
      let p := parents.getD parents_index 0
      if p = null_value then
        let r := isInPass null_value ancestorAt out_rest parents (parents_index + 1)
          new_children_index children_buffer
        (0 :: r.1, r.2.1, r.2.2)
      else if p = ancestorAt parents_index then
        let r := isInPass null_value ancestorAt out_rest parents (parents_index + 1)
          new_children_index children_buffer
        (1 :: r.1, r.2.1, r.2.2)
      else if children_buffer.getD new_children_index 0 = p then
        let r := isInPass null_value ancestorAt out_rest parents (parents_index + 1)
          new_children_index children_buffer
        (1 :: r.1, r.2.1, r.2.2)
      else
        let r := isInPass null_value ancestorAt out_rest parents (parents_index + 1)
          (new_children_index + 1) (children_buffer.set new_children_index p)
        (255 :: r.1, r.2.1, r.2.2)

/-- Outer loop of `isInImpl` (lines 173-222) with explicit fuel (the
source uses `DBMS_HIERARCHICAL_DICTIONARY_MAX_DEPTH`).  Returns the
final `out` together with the number of `toParent` calls made. -/
def isInLoop (null_value : Key) (ancestorAt : Nat → Key) (parentOf : Key → Key) :
    Nat → List Nat → List Key → List Key → List Nat × Nat
  | 0, out, _, _ => (out, 0)
  | fuel + 1, out, parents, children_buffer =>
    let r := isInPass null_value ancestorAt out parents 0 0 children_buffer
    if r.2.2 = 0 then (r.1, 0)
    else
      let children := r.2.1.take r.2.2
      let next := isInLoop null_value ancestorAt parentOf fuel r.1 (children.map parentOf) children
      (next.1, next.2 + 1)

/-- Method `CacheDictionary::isInImpl` (lines 159-223): `out` starts
all `0xFF`, the first `parents` are the child ids themselves, and the
`children` buffer starts zeroed at `out` size. -/
def isInImpl (null_value : Key) (ancestorAt : Nat → Key) (parentOf : Key → Key)
    (child_ids : List Key) (max_depth : Nat) : List Nat × Nat :=
  isInLoop null_value ancestorAt parentOf max_depth
    (child_ids.map fun _ => 255) child_ids (child_ids.map fun _ => 0)

/-- Ancestor accumulation of `isInConstantVector` (lines 245-259):
starting from the child, repeatedly take the parent until the null
value (or the depth bound) is reached, appending every parent seen. -/
def isInConstantVectorAncestors (parentOf : Key → Key) (null_value : Key) :
    Nat → Key → List Key → List Key
  | 0, _, ancestors => ancestors
  | fuel + 1, child, ancestors =>
    let p := parentOf child
    if p = null_value then ancestors
    else isInConstantVectorAncestors parentOf null_value fuel p (ancestors ++ [p])

/-- Method `CacheDictionary::isInConstantVector` (lines 238-264): the
ancestor set is seeded with the child id itself, then each output
position is a linear search of the queried ancestor in that set. -/
def isInConstantVector (parentOf : Key → Key) (null_value : Key) (child_id : Key)
    (ancestor_ids : List Key) (max_depth : Nat) : List Bool :=
  let ancestors := isInConstantVectorAncestors parentOf null_value max_depth child_id [child_id]
  ancestor_ids.map fun a => decide (a ∈ ancestors)

/-! Contracts of the external collaborators, as hypotheses. -/

/-- Storage contract for `fetchColumnsForKeys` results (spec §3 "Fetch
result"): the two index maps together hold exactly one entry per input
key classified found-or-expired, so the number of input keys carrying an
index entry equals the combined index size. -/
structure StorageOk (keys : List Key) (fr : FetchResult) : Prop where
  classified_count :
    (keys.filter fun k =>
      (lookupIndex fr.found_keys_to_fetched_columns_index k).isSome ||
        (lookupIndex fr.expired_keys_to_fetched_columns_index k).isSome).length =
    fr.found_keys_to_fetched_columns_index.length +
      fr.expired_keys_to_fetched_columns_index.length

/-- Well-formed source block (spec §6): one attribute column per schema
position, each row-aligned with the block's key column. -/
abbrev BlockOk (mask : List Bool) (b : SourceBlock) : Prop :=
  ∀ i, i < mask.length → (b.columns.getD i []).length = b.keys.length

/-- Second definition for the relational claim about `hasKeys`,
following the spec's words: the per-key verdict "was found in storage
or fetched during the update" of a `getColumns` run — true at keys in
the found-in-storage index, and at keys in the update unit's index when
that run performed a sync update (the only case in which update results
are merged). -/
def getColumnsFoundOrFetched (keys : List Key) (fr : FetchResult)
    (allow_read_expired_keys : Bool) (update_index : List (Key × Nat)) : List Bool :=
  let expired_keys_size := fr.expired_keys_to_fetched_columns_index.length
  let found_keys_size := fr.found_keys_to_fetched_columns_index.length
  let synced : Bool :=
    decide (¬ (keys.length = expired_keys_size + found_keys_size ∧ expired_keys_size = 0) ∧
      ¬ (keys.length = expired_keys_size + found_keys_size ∧
          0 < expired_keys_size ∧ allow_read_expired_keys = true))
  keys.map fun key =>
    (lookupIndex fr.found_keys_to_fetched_columns_index key).isSome ||
      (synced && (lookupIndex update_index key).isSome)

/-- Concrete storage lookup result used by the counterexamples: key `7`
sits in the cache but is expired (row 0 of the fetched columns, value
`5`), nothing is found fresh, and `7` is queued for refresh. -/
def expiredOnlyFetchResult : FetchResult :=
  { fetched_columns := [[5]],
    found_keys_to_fetched_columns_index := [],
    expired_keys_to_fetched_columns_index := [(7, 0)],
    not_found_or_expired_keys := [7] }

/-! Helper lemmas. -/

theorem getD_zero {α : Type} (l : List α) (d : α) : l.getD 0 d = l.headD d := by
  cases l <;> rfl

theorem getD_succ {α : Type} (l : List α) (i : Nat) (d : α) :
    l.getD (i + 1) d = l.tail.getD i d := by
  cases l <;> rfl

theorem getD_cons_zero {α : Type} (a : α) (l : List α) (d : α) : (a :: l).getD 0 d = a := rfl

theorem getD_cons_succ {α : Type} (a : α) (l : List α) (i : Nat) (d : α) :
    (a :: l).getD (i + 1) d = l.getD i d := rfl

theorem mem_isInConstantVectorAncestors (parentOf : Key → Key) (null_value a : Key) :
    ∀ (fuel : Nat) (child : Key) (ancestors : List Key), a ∈ ancestors →
      a ∈ isInConstantVectorAncestors parentOf null_value fuel child ancestors := by
  intro fuel
  induction fuel with
  | zero => intro child ancestors h; exact h
  | succ n ih =>
    intro child ancestors h
    simp only [isInConstantVectorAncestors]
    split
    · exact h
    · exact ih (parentOf child) (ancestors ++ [parentOf child])
        (List.mem_append_left _ h)

/-! Claim theorems: backoff controller (C4, C7). -/

/-- C4 (amended): whenever the worker's current time is not strictly
after `backoff_end_time`, the update skips the source fetch and fails
immediately with the suppressed-by-backoff error carrying the scheduled
deadline; the failure leaves the backoff state unchanged, so an
immediate retry fails with the same deadline; a fetch is attempted
exactly when the current time is strictly after the deadline. -/
theorem update_backoff_suppression (now : Nat) (fetch : Except Nat Unit)
    (durationWithBackoff : Nat → Nat) (st : BackoffState)
    (h : now ≤ st.backoff_end_time) :
    (updateStep now fetch durationWithBackoff st).attempted_fetch = false ∧
    (updateStep now fetch durationWithBackoff st).error =
      some (UpdateError.suppressedByBackoff st.backoff_end_time) ∧
    (updateStep now fetch durationWithBackoff st).state = st ∧
    (∀ fetch2 : Except Nat Unit,
      (updateStep now fetch2 durationWithBackoff
          (updateStep now fetch durationWithBackoff st).state).error =
        some (UpdateError.suppressedByBackoff st.backoff_end_time)) ∧
    (∀ (now2 : Nat) (fetch2 : Except Nat Unit), st.backoff_end_time < now2 →
      (updateStep now2 fetch2 durationWithBackoff st).attempted_fetch = true) := by
  have hnot : ¬ st.backoff_end_time < now := Nat.not_lt.mpr h
  refine ⟨?_, ?_, ?_, ?_, ?_⟩
  · simp [updateStep, hnot]
  · simp [updateStep, hnot]
  · simp [updateStep, hnot]
  · intro fetch2
    simp [updateStep, hnot]
  · intro now2 fetch2 h2
    cases fetch2 <;> simp [updateStep, h2]

/-- Witness for the backoff suppression theorem at a concrete state. -/
theorem update_backoff_suppression_witness :
    (3 : Nat) ≤ 5 ∧
      (updateStep 3 (Except.ok ()) (fun n => n) ⟨2, some 1, 5⟩).attempted_fetch = false :=
  ⟨by decide,
    (update_backoff_suppression 3 (Except.ok ()) (fun n => n) ⟨2, some 1, 5⟩ (by decide)).1⟩

/-- Counterexample to C4 as stated: at `now = backoff_end_time` the
current time is not before the deadline, yet the worker still skips the
source fetch (the code only fetches when `now > backoff_end_time`). -/
theorem update_backoff_boundary_counterexample :
    ¬ (5 : Nat) < 5 ∧
      (updateStep 5 (Except.ok ()) (fun n => n) ⟨2, some 1, 5⟩).attempted_fetch = false := by
  decide

/-- C7: after a successful source fetch the backoff state is fully
reset (`error_count = 0`, no stored exception, zero deadline); after a
failed fetch `error_count` is incremented, the exception stored, and the
deadline moved to `now` plus the jittered duration derived from the new
`error_count`. -/
theorem update_backoff_reset_and_failure (now : Nat)
    (durationWithBackoff : Nat → Nat) (st : BackoffState)
    (h : st.backoff_end_time < now) :
    (updateStep now (Except.ok ()) durationWithBackoff st).state =
      { error_count := 0, last_exception := none, backoff_end_time := 0 } ∧
    ∀ e : Nat, (updateStep now (Except.error e) durationWithBackoff st).state =
      { error_count := st.error_count + 1, last_exception := some e,
        backoff_end_time := now + durationWithBackoff (st.error_count + 1) } := by
  constructor
  · simp [updateStep, h]
  · intro e
    simp [updateStep, h]

/-- Witness for the backoff reset/failure theorem at a concrete state. -/
theorem update_backoff_reset_and_failure_witness :
    (5 : Nat) < 7 ∧
      (updateStep 7 (Except.ok ()) (fun n => 2 * n) ⟨3, some 4, 5⟩).state = ⟨0, none, 0⟩ :=
  ⟨by decide,
    (update_backoff_reset_and_failure 7 (fun n => 2 * n) ⟨3, some 4, 5⟩ (by decide)).1⟩

/-! Claim theorem: seeded self-ancestor in `isInConstantVector` (C10). -/

/-- C10: the single-child ancestor check seeds the child id into the
ancestor set before any parent lookup, so every output position whose
queried ancestor equals the child id is true, whatever the hierarchy
contains. -/
theorem isInConstantVector_self_ancestor (parentOf : Key → Key) (null_value child_id : Key)
    (ancestor_ids : List Key) (max_depth i : Nat)
    (hi : i < ancestor_ids.length) (hc : ancestor_ids.getD i 0 = child_id) :
    (isInConstantVector parentOf null_value child_id ancestor_ids max_depth).getD i false =
      true := by
  have hmem : child_id ∈
      isInConstantVectorAncestors parentOf null_value max_depth child_id [child_id] :=
    mem_isInConstantVectorAncestors parentOf null_value child_id max_depth child_id
      [child_id] (by simp)
  unfold isInConstantVector
  induction ancestor_ids generalizing i with
  | nil => exact absurd hi (by simp)
  | cons a rest ih =>
    cases i with
    | zero =>
      have ha : a = child_id := by simpa [getD_zero] using hc
      simp [ha, hmem]
    | succ i' =>
      have hi' : i' < rest.length := by simpa using hi
      have hc' : rest.getD i' 0 = child_id := by simpa [getD_succ] using hc
      simpa [getD_succ] using ih i' hi' hc'

/-- Witness for the self-ancestor theorem at a concrete hierarchy. -/
theorem isInConstantVector_self_ancestor_witness :
    (1 : Nat) < 2 ∧ ([9, 4] : List Key).getD 1 0 = 4 ∧
      (isInConstantVector (fun _ => 0) 0 4 [9, 4] 2).getD 1 false = true :=
  ⟨by decide, by decide,
    isInConstantVector_self_ancestor (fun _ => 0) 0 4 [9, 4] 2 1 (by decide) (by decide)⟩

/-! Lemmas about the worker update loop (C5). -/

theorem addKeysToIndex_mem (ks : List Key) :
    ∀ (index : List (Key × Nat)) (offset : Nat) (p : Key × Nat),
      p ∈ addKeysToIndex index ks offset →
      p ∈ index ∨ (p.1 ∈ ks ∧ offset ≤ p.2 ∧ p.2 < offset + ks.length) := by
  induction ks with
  | nil => intro index offset p hp; exact Or.inl hp
  | cons k rest ih =>
    intro index offset p hp
    rcases ih ((k, offset) :: index) (offset + 1) p hp with h | h
    · rcases List.mem_cons.mp h with h | h
      · subst h
        exact Or.inr ⟨List.mem_cons_self k rest, Nat.le_refl _, by simp⟩
      · exact Or.inl h
    · refine Or.inr ⟨List.mem_cons_of_mem k h.1, ?_, ?_⟩
      · omega
      · have := h.2.2
        simp only [List.length_cons]
        omega

theorem updateLoop_found_num (mask : List Bool) :
    ∀ (blocks : List SourceBlock) (found_num : Nat) (index : List (Key × Nat))
      (accumulated : List (List Value)),
      (updateLoop mask blocks found_num index accumulated).2.2 =
        found_num + (sourceKeys blocks).length := by
  intro blocks
  induction blocks with
  | nil => intro found_num index accumulated; simp [updateLoop, sourceKeys]
  | cons b rest ih =>
    intro found_num index accumulated
    simp only [updateLoop, sourceKeys, List.flatMap_cons, List.length_append]
    rw [ih]
    have : sourceKeys rest = rest.flatMap fun b => b.keys := rfl
    rw [this]
    omega

theorem updateLoop_index_mem (mask : List Bool) :
    ∀ (blocks : List SourceBlock) (found_num : Nat) (index : List (Key × Nat))
      (accumulated : List (List Value)) (p : Key × Nat),
      p ∈ (updateLoop mask blocks found_num index accumulated).1 →
      p ∈ index ∨ (p.1 ∈ sourceKeys blocks ∧
        p.2 < (updateLoop mask blocks found_num index accumulated).2.2) := by
  intro blocks
  induction blocks with
  | nil => intro found_num index accumulated p hp; exact Or.inl hp
  | cons b rest ih =>
    intro found_num index accumulated p hp
    simp only [updateLoop] at hp ⊢
    rcases ih (found_num + b.keys.length) (addKeysToIndex index b.keys found_num)
        (appendBlockColumns mask accumulated b.columns b.keys.length) p hp with h | h
    · rcases addKeysToIndex_mem b.keys index found_num p h with h' | h'
      · exact Or.inl h'
      · refine Or.inr ⟨?_, ?_⟩
        · simp [sourceKeys, h'.1]
        · have hfn := updateLoop_found_num mask rest (found_num + b.keys.length)
            (addKeysToIndex index b.keys found_num)
            (appendBlockColumns mask accumulated b.columns b.keys.length)
          have := h'.2.2
          omega
    · refine Or.inr ⟨?_, h.2⟩
      have : sourceKeys (b :: rest) = b.keys ++ sourceKeys rest := by
        simp [sourceKeys]
      rw [this]
      exact List.mem_append_right _ h.1

theorem getD_map_const_nil (mask : List Bool) :
    ∀ i : Nat, ((mask.map fun _ => ([] : List Value)).getD i []) = [] := by
  induction mask with
  | nil => intro i; rfl
  | cons m rest ih =>
    intro i
    cases i with
    | zero => rfl
    | succ i' => simpa [getD_succ] using ih i'

theorem appendBlockColumns_getD_true :
    ∀ (mask : List Bool) (accumulated block_columns : List (List Value)) (kn i : Nat),
      i < mask.length → mask.getD i false = true → (block_columns.getD i []).length = kn →
      ((appendBlockColumns mask accumulated block_columns kn).getD i []).length =
        (accumulated.getD i []).length + kn := by
  intro mask
  induction mask with
  | nil => intro accumulated block_columns kn i hi; exact absurd hi (by simp)
  | cons m rest ih =>
    intro accumulated block_columns kn i hi hm hb
    have hunfold : appendBlockColumns (m :: rest) accumulated block_columns kn =
        (if m then accumulated.headD [] ++ (block_columns.headD []).take kn
         else accumulated.headD []) ::
          appendBlockColumns rest accumulated.tail block_columns.tail kn := rfl
    cases i with
    | zero =>
      rw [getD_cons_zero] at hm
      rw [getD_zero] at hb
      rw [hunfold, getD_cons_zero, getD_zero, hm, if_pos rfl, List.length_append,
        List.length_take, hb, Nat.min_self]
    | succ i' =>
      have hi' : i' < rest.length := by simpa using hi
      rw [getD_cons_succ] at hm
      rw [getD_succ] at hb
      rw [hunfold, getD_cons_succ, getD_succ (l := accumulated)]
      exact ih accumulated.tail block_columns.tail kn i' hi' hm hb

theorem updateLoop_columns_length (mask : List Bool) :
    ∀ (blocks : List SourceBlock) (found_num : Nat) (index : List (Key × Nat))
      (accumulated : List (List Value)),
      (∀ b ∈ blocks, BlockOk mask b) →
      (∀ i, i < mask.length → mask.getD i false = true →
        (accumulated.getD i []).length = found_num) →
      ∀ i, i < mask.length → mask.getD i false = true →
        (((updateLoop mask blocks found_num index accumulated).2.1).getD i []).length =
          (updateLoop mask blocks found_num index accumulated).2.2 := by
  intro blocks
  induction blocks with
  | nil =>
    intro found_num index accumulated _ hacc i hi hm
    simpa [updateLoop] using hacc i hi hm
  | cons b rest ih =>
    intro found_num index accumulated hblocks hacc i hi hm
    simp only [updateLoop]
    refine ih (found_num + b.keys.length) (addKeysToIndex index b.keys found_num)
      (appendBlockColumns mask accumulated b.columns b.keys.length)
      (fun b' hb' => hblocks b' (List.mem_cons_of_mem b hb')) ?_ i hi hm
    intro j hj hmj
    rw [appendBlockColumns_getD_true mask accumulated b.columns b.keys.length j hj hmj
      (hblocks b (List.mem_cons_self b rest) j hj)]
    rw [hacc j hj hmj]

/-! Claim theorems: update-unit index invariant (C5). -/

/-- C5 (amended): during a worker update, every entry of the unit's
update index maps a key returned by the external source for this
refresh to a row strictly below the unit's accumulated row count, and
every requested attribute's accumulated output column has exactly that
many rows; entries lie in the unit's requested key set only under the
additional assumption that the source returns requested keys only (the
loop itself never filters against the requested set). -/
theorem update_index_invariant (requested_simple_keys : List Key) (mask : List Bool)
    (source_blocks : List SourceBlock)
    (hblocks : ∀ b ∈ source_blocks, BlockOk mask b) :
    (∀ p ∈ (update requested_simple_keys mask source_blocks).1,
       p.1 ∈ sourceKeys source_blocks ∧
         p.2 < (update requested_simple_keys mask source_blocks).2.2) ∧
    (∀ i, i < mask.length → mask.getD i false = true →
       (((update requested_simple_keys mask source_blocks).2.1).getD i []).length =
         (update requested_simple_keys mask source_blocks).2.2) ∧
    ((∀ k ∈ sourceKeys source_blocks, k ∈ requested_simple_keys) →
       ∀ p ∈ (update requested_simple_keys mask source_blocks).1,
         p.1 ∈ requested_simple_keys) := by
  refine ⟨?_, ?_, ?_⟩
  · intro p hp
    rcases updateLoop_index_mem mask source_blocks 0 [] (mask.map fun _ => []) p hp with
      h | h
    · exact absurd h (List.not_mem_nil p)
    · exact h
  · intro i hi hm
    exact updateLoop_columns_length mask source_blocks 0 [] (mask.map fun _ => [])
      hblocks (fun j hj _ => by simp [getD_map_const_nil]) i hi hm
  · intro hsub p hp
    rcases updateLoop_index_mem mask source_blocks 0 [] (mask.map fun _ => []) p hp with
      h | h
    · exact absurd h (List.not_mem_nil p)
    · exact hsub p.1 h.1

/-- Witness for the update-index invariant at a concrete stream. -/
theorem update_index_invariant_witness :
    (∀ b ∈ [SourceBlock.mk [5, 6] [[50, 60]]], BlockOk [true] b) ∧
      ∀ p ∈ (update [5, 6] [true] [SourceBlock.mk [5, 6] [[50, 60]]]).1,
        p.1 ∈ sourceKeys [SourceBlock.mk [5, 6] [[50, 60]]] ∧
          p.2 < (update [5, 6] [true] [SourceBlock.mk [5, 6] [[50, 60]]]).2.2 :=
  ⟨by decide,
    (update_index_invariant [5, 6] [true] [SourceBlock.mk [5, 6] [[50, 60]]]
      (by decide)).1⟩

/-- Counterexample to C5 as stated: with requested key set `{1}` and a
source block returning key `5`, the update index gains the entry
`(5, 0)` although `5` is not a member of the requested key set — the
loop records every source-returned key unfiltered. -/
theorem update_index_unrequested_key_counterexample :
    (update [1] [true] [SourceBlock.mk [5] [[9]]]).1 = [(5, 0)] ∧ ¬ (5 : Key) ∈ [1] := by
  constructor
  · rfl
  · decide

/-! Lemmas about the storage contract and the merge helpers. -/

theorem StorageOk.coverage (keys : List Key) (fr : FetchResult) (h : StorageOk keys fr)
    (hall : keys.length = fr.found_keys_to_fetched_columns_index.length +
      fr.expired_keys_to_fetched_columns_index.length) :
    ∀ k ∈ keys,
      (lookupIndex fr.found_keys_to_fetched_columns_index k).isSome = true ∨
        (lookupIndex fr.expired_keys_to_fetched_columns_index k).isSome = true := by
  intro k hk
  have hlen : (keys.filter fun k =>
      (lookupIndex fr.found_keys_to_fetched_columns_index k).isSome ||
        (lookupIndex fr.expired_keys_to_fetched_columns_index k).isSome).length =
      keys.length := by
    rw [h.classified_count, hall]
  have heq : (keys.filter fun k =>
      (lookupIndex fr.found_keys_to_fetched_columns_index k).isSome ||
        (lookupIndex fr.expired_keys_to_fetched_columns_index k).isSome) = keys :=
    (List.filter_sublist keys).eq_of_length hlen
  have hkf : k ∈ keys.filter fun k =>
      (lookupIndex fr.found_keys_to_fetched_columns_index k).isSome ||
        (lookupIndex fr.expired_keys_to_fetched_columns_index k).isSome := by
    rw [heq]; exact hk
  have hp := (List.mem_filter.mp hkf).2
  simpa using hp

theorem StorageOk.coverage_found (keys : List Key) (fr : FetchResult) (h : StorageOk keys fr)
    (hall : keys.length = fr.found_keys_to_fetched_columns_index.length +
      fr.expired_keys_to_fetched_columns_index.length)
    (hzero : fr.expired_keys_to_fetched_columns_index.length = 0) :
    ∀ k ∈ keys, (lookupIndex fr.found_keys_to_fetched_columns_index k).isSome = true := by
  intro k hk
  have hnil : fr.expired_keys_to_fetched_columns_index = [] :=
    List.length_eq_zero.mp hzero
  rcases StorageOk.coverage keys fr h hall k hk with h1 | h1
  · exact h1
  · rw [hnil] at h1
    simp [lookupIndex] at h1

theorem aggregateColumnsAttr_length (scol : List Value) (fidx : List (Key × Nat))
    (ucol : List Value) (uidx : List (Key × Nat)) (dvp : DefaultValueProvider) :
    ∀ (keys : List Key) (j : Nat),
      (aggregateColumnsAttr scol fidx ucol uidx dvp keys j).length = keys.length := by
  intro keys
  induction keys with
  | nil => intro j; rfl
  | cons k rest ih => intro j; simp [aggregateColumnsAttr, ih]

theorem aggregateColumnsAttr_getD (scol : List Value) (fidx : List (Key × Nat))
    (ucol : List Value) (uidx : List (Key × Nat)) (dvp : DefaultValueProvider) :
    ∀ (keys : List Key) (j0 j : Nat), j < keys.length →
      (aggregateColumnsAttr scol fidx ucol uidx dvp keys j0).getD j 0 =
        (match lookupIndex fidx (keys.getD j 0) with
          | some row => scol.getD row 0
          | none =>
            match lookupIndex uidx (keys.getD j 0) with
            | some row => ucol.getD row 0
            | none => dvp.getDefaultValue (j0 + j)) := by
  intro keys
  induction keys with
  | nil => intro j0 j hj; exact absurd hj (by simp)
  | cons k rest ih =>
    intro j0 j hj
    have hunfold : aggregateColumnsAttr scol fidx ucol uidx dvp (k :: rest) j0 =
        (match lookupIndex fidx k with
          | some row => scol.getD row 0
          | none =>
            match lookupIndex uidx k with
            | some row => ucol.getD row 0
            | none => dvp.getDefaultValue j0) ::
          aggregateColumnsAttr scol fidx ucol uidx dvp rest (j0 + 1) := rfl
    cases j with
    | zero =>
      rw [hunfold, getD_cons_zero, getD_cons_zero, Nat.add_zero]
    | succ j' =>
      have hj' : j' < rest.length := by simpa using hj
      have hrec := ih (j0 + 1) j' hj'
      rw [hunfold, getD_cons_succ, getD_cons_succ,
        show j0 + (j' + 1) = (j0 + 1) + j' by omega]
      exact hrec

theorem aggregateColumnsInOrderOfKeysAttr_length (fcol : List Value)
    (fidx eidx : List (Key × Nat)) :
    ∀ keys : List Key,
      (∀ k ∈ keys, (lookupIndex fidx k).isSome = true ∨
        (lookupIndex eidx k).isSome = true) →
      (aggregateColumnsInOrderOfKeysAttr fcol fidx eidx keys).length = keys.length := by
  intro keys
  induction keys with
  | nil => intro _; rfl
  | cons k rest ih =>
    intro hcov
    have hrest := fun k' hk' => hcov k' (List.mem_cons_of_mem k hk')
    have hk := hcov k (List.mem_cons_self k rest)
    cases he : lookupIndex eidx k with
    | some row => simp [aggregateColumnsInOrderOfKeysAttr, he, ih hrest]
    | none =>
      cases hf : lookupIndex fidx k with
      | some row => simp [aggregateColumnsInOrderOfKeysAttr, he, hf, ih hrest]
      | none =>
        rcases hk with h1 | h1
        · rw [hf] at h1; simp at h1
        · rw [he] at h1; simp at h1

theorem mem_filterRequestedColumns :
    ∀ (mask : List Bool) (cols : List (List Value)) (c : List Value),
      c ∈ filterRequestedColumns mask cols → c ∈ cols := by
  intro mask
  induction mask with
  | nil => intro cols c hc; simp [filterRequestedColumns] at hc
  | cons m mrest ih =>
    intro cols c hc
    cases cols with
    | nil =>
      rw [show filterRequestedColumns (m :: mrest) [] = [] from rfl] at hc
      simp at hc
    | cons col crest =>
      cases m with
      | true =>
        rw [show filterRequestedColumns (true :: mrest) (col :: crest) =
          col :: filterRequestedColumns mrest crest from rfl] at hc
        rcases List.mem_cons.mp hc with h | h
        · exact h ▸ List.mem_cons_self col crest
        · exact List.mem_cons_of_mem col (ih crest c h)
      | false =>
        rw [show filterRequestedColumns (false :: mrest) (col :: crest) =
          filterRequestedColumns mrest crest from rfl] at hc
        exact List.mem_cons_of_mem col (ih crest c hc)

theorem filter_aggregateColumns_length (keys : List Key) :
    ∀ (mask : List Bool) (scols : List (List Value)) (fidx : List (Key × Nat))
      (ucols : List (List Value)) (uidx : List (Key × Nat))
      (dvps : List DefaultValueProvider) (c : List Value),
      c ∈ filterRequestedColumns mask
        (aggregateColumns keys mask scols fidx ucols uidx dvps) →
      c.length = keys.length := by
  intro mask
  induction mask with
  | nil =>
    intro scols fidx ucols uidx dvps c hc
    simp [aggregateColumns, filterRequestedColumns] at hc
  | cons m mrest ih =>
    intro scols fidx ucols uidx dvps c hc
    cases m with
    | true =>
      rw [show aggregateColumns keys (true :: mrest) scols fidx ucols uidx dvps =
        aggregateColumnsAttr (scols.headD []) fidx (ucols.headD []) uidx
          (dvps.headD ⟨0, none⟩) keys 0 ::
          aggregateColumns keys mrest scols.tail fidx ucols.tail uidx dvps.tail
        from rfl] at hc
      rw [show filterRequestedColumns (true :: mrest)
        (aggregateColumnsAttr (scols.headD []) fidx (ucols.headD []) uidx
          (dvps.headD ⟨0, none⟩) keys 0 ::
          aggregateColumns keys mrest scols.tail fidx ucols.tail uidx dvps.tail) =
        aggregateColumnsAttr (scols.headD []) fidx (ucols.headD []) uidx
          (dvps.headD ⟨0, none⟩) keys 0 ::
          filterRequestedColumns mrest
            (aggregateColumns keys mrest scols.tail fidx ucols.tail uidx dvps.tail)
        from rfl] at hc
      rcases List.mem_cons.mp hc with h | h
      · rw [h]
        exact aggregateColumnsAttr_length (scols.headD []) fidx (ucols.headD []) uidx
          (dvps.headD ⟨0, none⟩) keys 0
      · exact ih scols.tail fidx ucols.tail uidx dvps.tail c h
    | false =>
      rw [show aggregateColumns keys (false :: mrest) scols fidx ucols uidx dvps =
        [] :: aggregateColumns keys mrest scols.tail fidx ucols.tail uidx dvps.tail
        from rfl] at hc
      rw [show filterRequestedColumns (false :: mrest)
        ([] :: aggregateColumns keys mrest scols.tail fidx ucols.tail uidx dvps.tail) =
        filterRequestedColumns mrest
          (aggregateColumns keys mrest scols.tail fidx ucols.tail uidx dvps.tail)
        from rfl] at hc
      exact ih scols.tail fidx ucols.tail uidx dvps.tail c hc

theorem filter_aggregateColumnsInOrderOfKeys_length (keys : List Key)
    (fidx eidx : List (Key × Nat))
    (hcov : ∀ k ∈ keys, (lookupIndex fidx k).isSome = true ∨
      (lookupIndex eidx k).isSome = true) :
    ∀ (mask : List Bool) (fcols : List (List Value)) (c : List Value),
      c ∈ filterRequestedColumns mask
        (aggregateColumnsInOrderOfKeys keys mask fcols fidx eidx) →
      c.length = keys.length := by
  intro mask
  induction mask with
  | nil =>
    intro fcols c hc
    simp [aggregateColumnsInOrderOfKeys, filterRequestedColumns] at hc
  | cons m mrest ih =>
    intro fcols c hc
    cases m with
    | true =>
      rw [show aggregateColumnsInOrderOfKeys keys (true :: mrest) fcols fidx eidx =
        aggregateColumnsInOrderOfKeysAttr (fcols.headD []) fidx eidx keys ::
          aggregateColumnsInOrderOfKeys keys mrest fcols.tail fidx eidx from rfl] at hc
      rw [show filterRequestedColumns (true :: mrest)
        (aggregateColumnsInOrderOfKeysAttr (fcols.headD []) fidx eidx keys ::
          aggregateColumnsInOrderOfKeys keys mrest fcols.tail fidx eidx) =
        aggregateColumnsInOrderOfKeysAttr (fcols.headD []) fidx eidx keys ::
          filterRequestedColumns mrest
            (aggregateColumnsInOrderOfKeys keys mrest fcols.tail fidx eidx)
        from rfl] at hc
      rcases List.mem_cons.mp hc with h | h
      · rw [h]
        exact aggregateColumnsInOrderOfKeysAttr_length (fcols.headD []) fidx eidx keys hcov
      · exact ih fcols.tail c h
    | false =>
      rw [show aggregateColumnsInOrderOfKeys keys (false :: mrest) fcols fidx eidx =
        [] :: aggregateColumnsInOrderOfKeys keys mrest fcols.tail fidx eidx from rfl] at hc
      rw [show filterRequestedColumns (false :: mrest)
        ([] :: aggregateColumnsInOrderOfKeys keys mrest fcols.tail fidx eidx) =
        filterRequestedColumns mrest
          (aggregateColumnsInOrderOfKeys keys mrest fcols.tail fidx eidx)
        from rfl] at hc
      exact ih fcols.tail c hc

/-! Branch-reduction lemmas for the query pipeline. -/

theorem getColumnsImpl_all_found (dict_struct : DictionaryStructure)
    (attribute_names : List Nat) (keys : List Key)
    (default_values_columns : List (Option (List Value))) (fr : FetchResult)
    (allow_read_expired_keys returnsInKeyOrder : Bool)
    (update_index : List (Key × Nat)) (update_columns : List (List Value))
    (h1 : keys.length = fr.expired_keys_to_fetched_columns_index.length +
        fr.found_keys_to_fetched_columns_index.length ∧
      fr.expired_keys_to_fetched_columns_index.length = 0) :
    (getColumnsImpl dict_struct attribute_names keys default_values_columns fr
        allow_read_expired_keys returnsInKeyOrder update_index update_columns).columns =
      (if returnsInKeyOrder then
        filterRequestedColumns (makeRequestMask dict_struct attribute_names)
          fr.fetched_columns
       else
        filterRequestedColumns (makeRequestMask dict_struct attribute_names)
          (aggregateColumnsInOrderOfKeys keys (makeRequestMask dict_struct attribute_names)
            fr.fetched_columns fr.found_keys_to_fetched_columns_index
            fr.expired_keys_to_fetched_columns_index)) ∧
    (getColumnsImpl dict_struct attribute_names keys default_values_columns fr
        allow_read_expired_keys returnsInKeyOrder update_index update_columns).submitted_update =
      false ∧
    (getColumnsImpl dict_struct attribute_names keys default_values_columns fr
        allow_read_expired_keys returnsInKeyOrder update_index update_columns).waited_for_update =
      false := by
  simp only [getColumnsImpl]
  rw [if_pos h1]
  exact ⟨rfl, rfl, rfl⟩

theorem getColumnsImpl_async_refresh (dict_struct : DictionaryStructure)
    (attribute_names : List Nat) (keys : List Key)
    (default_values_columns : List (Option (List Value))) (fr : FetchResult)
    (allow_read_expired_keys returnsInKeyOrder : Bool)
    (update_index : List (Key × Nat)) (update_columns : List (List Value))
    (h1 : ¬ (keys.length = fr.expired_keys_to_fetched_columns_index.length +
        fr.found_keys_to_fetched_columns_index.length ∧
      fr.expired_keys_to_fetched_columns_index.length = 0))
    (h2 : keys.length = fr.expired_keys_to_fetched_columns_index.length +
        fr.found_keys_to_fetched_columns_index.length ∧
      0 < fr.expired_keys_to_fetched_columns_index.length ∧
      allow_read_expired_keys = true) :
    (getColumnsImpl dict_struct attribute_names keys default_values_columns fr
        allow_read_expired_keys returnsInKeyOrder update_index update_columns).columns =
      (if returnsInKeyOrder then
        filterRequestedColumns (makeRequestMask dict_struct attribute_names)
          fr.fetched_columns
       else
        filterRequestedColumns (makeRequestMask dict_struct attribute_names)
          (aggregateColumnsInOrderOfKeys keys (makeRequestMask dict_struct attribute_names)
            fr.fetched_columns fr.found_keys_to_fetched_columns_index
            fr.expired_keys_to_fetched_columns_index)) ∧
    (getColumnsImpl dict_struct attribute_names keys default_values_columns fr
        allow_read_expired_keys returnsInKeyOrder update_index update_columns).submitted_update =
      true ∧
    (getColumnsImpl dict_struct attribute_names keys default_values_columns fr
        allow_read_expired_keys returnsInKeyOrder update_index update_columns).waited_for_update =
      false := by
  simp only [getColumnsImpl]
  rw [if_neg h1, if_pos h2]
  exact ⟨rfl, rfl, rfl⟩

theorem getColumnsImpl_sync_update (dict_struct : DictionaryStructure)
    (attribute_names : List Nat) (keys : List Key)
    (default_values_columns : List (Option (List Value))) (fr : FetchResult)
    (allow_read_expired_keys returnsInKeyOrder : Bool)
    (update_index : List (Key × Nat)) (update_columns : List (List Value))
    (h1 : ¬ (keys.length = fr.expired_keys_to_fetched_columns_index.length +
        fr.found_keys_to_fetched_columns_index.length ∧
      fr.expired_keys_to_fetched_columns_index.length = 0))
    (h2 : ¬ (keys.length = fr.expired_keys_to_fetched_columns_index.length +
        fr.found_keys_to_fetched_columns_index.length ∧
      0 < fr.expired_keys_to_fetched_columns_index.length ∧
      allow_read_expired_keys = true)) :
    (getColumnsImpl dict_struct attribute_names keys default_values_columns fr
        allow_read_expired_keys returnsInKeyOrder update_index update_columns).columns =
      filterRequestedColumns (makeRequestMask dict_struct attribute_names)
        (aggregateColumns keys (makeRequestMask dict_struct attribute_names)
          fr.fetched_columns fr.found_keys_to_fetched_columns_index
          update_columns update_index
          (buildDefaultValueProviders dict_struct attribute_names default_values_columns)) ∧
    (getColumnsImpl dict_struct attribute_names keys default_values_columns fr
        allow_read_expired_keys returnsInKeyOrder update_index update_columns).submitted_update =
      true ∧
    (getColumnsImpl dict_struct attribute_names keys default_values_columns fr
        allow_read_expired_keys returnsInKeyOrder update_index update_columns).waited_for_update =
      true := by
  simp only [getColumnsImpl]
  rw [if_neg h1, if_neg h2]
  exact ⟨rfl, rfl, rfl⟩

theorem hasKeys_all_found (keys : List Key) (fr : FetchResult)
    (allow_read_expired_keys : Bool) (update_index : List (Key × Nat))
    (h1 : keys.length = fr.found_keys_to_fetched_columns_index.length +
        fr.expired_keys_to_fetched_columns_index.length ∧
      fr.expired_keys_to_fetched_columns_index.length = 0) :
    (hasKeys keys fr allow_read_expired_keys update_index).column =
      (keys.map fun _ => true) ∧
    (hasKeys keys fr allow_read_expired_keys update_index).submitted_update = false ∧
    (hasKeys keys fr allow_read_expired_keys update_index).waited_for_update = false := by
  simp only [hasKeys]
  rw [if_pos h1]
  exact ⟨rfl, rfl, rfl⟩

theorem hasKeys_async_refresh (keys : List Key) (fr : FetchResult)
    (allow_read_expired_keys : Bool) (update_index : List (Key × Nat))
    (h1 : ¬ (keys.length = fr.found_keys_to_fetched_columns_index.length +
        fr.expired_keys_to_fetched_columns_index.length ∧
      fr.expired_keys_to_fetched_columns_index.length = 0))
    (h2 : keys.length = fr.found_keys_to_fetched_columns_index.length +
        fr.expired_keys_to_fetched_columns_index.length ∧
      0 < fr.expired_keys_to_fetched_columns_index.length ∧
      allow_read_expired_keys = true) :
    (hasKeys keys fr allow_read_expired_keys update_index).column =
      (keys.map fun _ => true) ∧
    (hasKeys keys fr allow_read_expired_keys update_index).submitted_update = true ∧
    (hasKeys keys fr allow_read_expired_keys update_index).waited_for_update = false := by
  simp only [hasKeys]
  rw [if_neg h1, if_pos h2]
  exact ⟨rfl, rfl, rfl⟩

theorem hasKeys_sync_update (keys : List Key) (fr : FetchResult)
    (allow_read_expired_keys : Bool) (update_index : List (Key × Nat))
    (h3 : ¬ keys.length = fr.found_keys_to_fetched_columns_index.length +
      fr.expired_keys_to_fetched_columns_index.length) :
    (hasKeys keys fr allow_read_expired_keys update_index).column =
      (keys.map fun key =>
        (lookupIndex fr.found_keys_to_fetched_columns_index key).isSome ||
          (lookupIndex update_index key).isSome) ∧
    (hasKeys keys fr allow_read_expired_keys update_index).submitted_update = true ∧
    (hasKeys keys fr allow_read_expired_keys update_index).waited_for_update = true := by
  simp only [hasKeys]
  rw [if_neg fun hc => h3 hc.1, if_neg fun hc => h3 hc.1, if_pos h3]
  exact ⟨rfl, rfl, rfl⟩

theorem hasKeys_fallthrough (keys : List Key) (fr : FetchResult)
    (allow_read_expired_keys : Bool) (update_index : List (Key × Nat))
    (hnf : keys.length = fr.found_keys_to_fetched_columns_index.length +
      fr.expired_keys_to_fetched_columns_index.length)
    (he : 0 < fr.expired_keys_to_fetched_columns_index.length)
    (hallow : allow_read_expired_keys = false) :
    (hasKeys keys fr allow_read_expired_keys update_index).column =
      (keys.map fun key =>
        (lookupIndex fr.found_keys_to_fetched_columns_index key).isSome) ∧
    (hasKeys keys fr allow_read_expired_keys update_index).submitted_update = false ∧
    (hasKeys keys fr allow_read_expired_keys update_index).waited_for_update = false := by
  simp only [hasKeys]
  rw [if_neg fun hc => by omega, if_neg fun hc => by simp [hallow] at hc,
    if_neg fun hc => hc hnf]
  exact ⟨rfl, rfl, rfl⟩

/-! Claim theorems: sync-update merge precedence (C1) and row counts
(C6). -/

/-- C1: for every `getColumns` query that performed a sync update, the
output is the `aggregateColumns` merge over the found-in-storage index,
the update unit's index and the defaults; per key the precedence is
found-in-storage, then fetched-during-update, then the caller's
default; and the expired-in-storage index has no influence on the
result (replacing it by any index of the same size leaves the whole
query result unchanged). -/
theorem getColumnsImpl_sync_merge (dict_struct : DictionaryStructure)
    (attribute_names : List Nat) (keys : List Key)
    (default_values_columns : List (Option (List Value))) (fr : FetchResult)
    (allow_read_expired_keys returnsInKeyOrder : Bool)
    (update_index : List (Key × Nat)) (update_columns : List (List Value))
    (h1 : ¬ (keys.length = fr.expired_keys_to_fetched_columns_index.length +
        fr.found_keys_to_fetched_columns_index.length ∧
      fr.expired_keys_to_fetched_columns_index.length = 0))
    (h2 : ¬ (keys.length = fr.expired_keys_to_fetched_columns_index.length +
        fr.found_keys_to_fetched_columns_index.length ∧
      0 < fr.expired_keys_to_fetched_columns_index.length ∧
      allow_read_expired_keys = true)) :
    (getColumnsImpl dict_struct attribute_names keys default_values_columns fr
        allow_read_expired_keys returnsInKeyOrder update_index update_columns).waited_for_update =
      true ∧
    (getColumnsImpl dict_struct attribute_names keys default_values_columns fr
        allow_read_expired_keys returnsInKeyOrder update_index update_columns).columns =
      filterRequestedColumns (makeRequestMask dict_struct attribute_names)
        (aggregateColumns keys (makeRequestMask dict_struct attribute_names)
          fr.fetched_columns fr.found_keys_to_fetched_columns_index
          update_columns update_index
          (buildDefaultValueProviders dict_struct attribute_names default_values_columns)) ∧
    (∀ (scol : List Value) (fidx : List (Key × Nat)) (ucol : List Value)
        (uidx : List (Key × Nat)) (dvp : DefaultValueProvider) (j : Nat),
      j < keys.length →
      (aggregateColumnsAttr scol fidx ucol uidx dvp keys 0).getD j 0 =
        (match lookupIndex fidx (keys.getD j 0) with
          | some row => scol.getD row 0
          | none =>
            match lookupIndex uidx (keys.getD j 0) with
            | some row => ucol.getD row 0
            | none => dvp.getDefaultValue j)) ∧
    (∀ expired2 : List (Key × Nat),
      expired2.length = fr.expired_keys_to_fetched_columns_index.length →
      getColumnsImpl dict_struct attribute_names keys default_values_columns
        { fr with expired_keys_to_fetched_columns_index := expired2 }
        allow_read_expired_keys returnsInKeyOrder update_index update_columns =
      getColumnsImpl dict_struct attribute_names keys default_values_columns fr
        allow_read_expired_keys returnsInKeyOrder update_index update_columns) := by
  refine ⟨?_, ?_, ?_, ?_⟩
  · exact (getColumnsImpl_sync_update dict_struct attribute_names keys
      default_values_columns fr allow_read_expired_keys returnsInKeyOrder
      update_index update_columns h1 h2).2.2
  · exact (getColumnsImpl_sync_update dict_struct attribute_names keys
      default_values_columns fr allow_read_expired_keys returnsInKeyOrder
      update_index update_columns h1 h2).1
  · intro scol fidx ucol uidx dvp j hj
    simpa using aggregateColumnsAttr_getD scol fidx ucol uidx dvp keys 0 j hj
  · intro expired2 hlen
    have h1' : ¬ (keys.length = expired2.length +
        fr.found_keys_to_fetched_columns_index.length ∧ expired2.length = 0) := by
      rw [hlen]; exact h1
    have h2' : ¬ (keys.length = expired2.length +
        fr.found_keys_to_fetched_columns_index.length ∧
        0 < expired2.length ∧ allow_read_expired_keys = true) := by
      rw [hlen]; exact h2
    simp only [getColumnsImpl]
    rw [if_neg h1', if_neg h2', if_neg h1, if_neg h2]

/-- Witness for the sync-merge theorem at a concrete query. -/
theorem getColumnsImpl_sync_merge_witness :
    (getColumnsImpl [⟨0, 0⟩] [0] [5, 6, 7] [some [99, 99, 99]]
        ⟨[[]], [], [], [5, 6, 7]⟩ false false [(5, 0), (6, 1)] [[50, 60]]).waited_for_update =
      true ∧
    (getColumnsImpl [⟨0, 0⟩] [0] [5, 6, 7] [some [99, 99, 99]]
        ⟨[[]], [], [], [5, 6, 7]⟩ false false [(5, 0), (6, 1)] [[50, 60]]).columns =
      filterRequestedColumns (makeRequestMask [⟨0, 0⟩] [0])
        (aggregateColumns [5, 6, 7] (makeRequestMask [⟨0, 0⟩] [0]) [[]] []
          [[50, 60]] [(5, 0), (6, 1)] (buildDefaultValueProviders [⟨0, 0⟩] [0]
            [some [99, 99, 99]])) :=
  ⟨(getColumnsImpl_sync_merge [⟨0, 0⟩] [0] [5, 6, 7] [some [99, 99, 99]]
      ⟨[[]], [], [], [5, 6, 7]⟩ false false [(5, 0), (6, 1)] [[50, 60]]
      (by decide) (by decide)).1,
   (getColumnsImpl_sync_merge [⟨0, 0⟩] [0] [5, 6, 7] [some [99, 99, 99]]
      ⟨[[]], [], [], [5, 6, 7]⟩ false false [(5, 0), (6, 1)] [[50, 60]]
      (by decide) (by decide)).2.1⟩

/-- C6: for a duplicate-free key list and a storage result satisfying
the storage contract, every output column of `getColumnsImpl` has
exactly one row per input key, in all three branches of the pipeline
and in both storage ordering modes. -/
theorem getColumnsImpl_output_length (dict_struct : DictionaryStructure)
    (attribute_names : List Nat) (keys : List Key)
    (default_values_columns : List (Option (List Value))) (fr : FetchResult)
    (allow_read_expired_keys returnsInKeyOrder : Bool)
    (update_index : List (Key × Nat)) (update_columns : List (List Value))
    (hnodup : keys.Nodup)
    (hwf : StorageOk keys fr)
    (hord : returnsInKeyOrder = true → ∀ c ∈ fr.fetched_columns, c.length = keys.length) :
    ∀ c ∈ (getColumnsImpl dict_struct attribute_names keys default_values_columns fr
      allow_read_expired_keys returnsInKeyOrder update_index update_columns).columns,
      c.length = keys.length := by
  intro c hc
  by_cases h1 : keys.length = fr.expired_keys_to_fetched_columns_index.length +
      fr.found_keys_to_fetched_columns_index.length ∧
      fr.expired_keys_to_fetched_columns_index.length = 0
  · rw [(getColumnsImpl_all_found dict_struct attribute_names keys default_values_columns
      fr allow_read_expired_keys returnsInKeyOrder update_index update_columns h1).1] at hc
    have hall : keys.length = fr.found_keys_to_fetched_columns_index.length +
        fr.expired_keys_to_fetched_columns_index.length := by omega
    cases returnsInKeyOrder with
    | true =>
      rw [if_pos rfl] at hc
      exact hord rfl c (mem_filterRequestedColumns _ _ c hc)
    | false =>
      rw [if_neg (by simp)] at hc
      exact filter_aggregateColumnsInOrderOfKeys_length keys
        fr.found_keys_to_fetched_columns_index fr.expired_keys_to_fetched_columns_index
        (StorageOk.coverage keys fr hwf hall) _ fr.fetched_columns c hc
  · by_cases h2 : keys.length = fr.expired_keys_to_fetched_columns_index.length +
        fr.found_keys_to_fetched_columns_index.length ∧
        0 < fr.expired_keys_to_fetched_columns_index.length ∧
        allow_read_expired_keys = true
    · rw [(getColumnsImpl_async_refresh dict_struct attribute_names keys
        default_values_columns fr allow_read_expired_keys returnsInKeyOrder
        update_index update_columns h1 h2).1] at hc
      have hall : keys.length = fr.found_keys_to_fetched_columns_index.length +
          fr.expired_keys_to_fetched_columns_index.length := by omega
      cases returnsInKeyOrder with
      | true =>
        rw [if_pos rfl] at hc
        exact hord rfl c (mem_filterRequestedColumns _ _ c hc)
      | false =>
        rw [if_neg (by simp)] at hc
        exact filter_aggregateColumnsInOrderOfKeys_length keys
          fr.found_keys_to_fetched_columns_index fr.expired_keys_to_fetched_columns_index
          (StorageOk.coverage keys fr hwf hall) _ fr.fetched_columns c hc
    · rw [(getColumnsImpl_sync_update dict_struct attribute_names keys
        default_values_columns fr allow_read_expired_keys returnsInKeyOrder
        update_index update_columns h1 h2).1] at hc
      exact filter_aggregateColumns_length keys _ fr.fetched_columns
        fr.found_keys_to_fetched_columns_index update_columns update_index
        (buildDefaultValueProviders dict_struct attribute_names default_values_columns)
        c hc

/-- Witness for the row-count theorem on a concrete all-hit query. -/
theorem getColumnsImpl_output_length_witness :
    ([3, 1, 2] : List Key).Nodup ∧
    ∀ c ∈ (getColumnsImpl [⟨0, 0⟩] [0] [3, 1, 2] [some [0, 0, 0]]
        ⟨[[10, 20, 30]], [(1, 0), (2, 1), (3, 2)], [], []⟩ false false [] [[]]).columns,
      c.length = ([3, 1, 2] : List Key).length :=
  ⟨by decide,
    getColumnsImpl_output_length [⟨0, 0⟩] [0] [3, 1, 2] [some [0, 0, 0]]
      ⟨[[10, 20, 30]], [(1, 0), (2, 1), (3, 2)], [], []⟩ false false [] [[]]
      (by decide) ⟨by decide⟩ (by intro h; simp at h)⟩

/-! Claim theorems: update submission policy (C2) and the
`hasKeys`/`getColumns` relation (C3). -/

/-- C2 (amended): when the lookup is neither all-found nor
expired-only-with-expired-reads-allowed, `getColumnsImpl` always
submits the update unit, blocks on it, and merges its results; for
`hasKeys` this holds only when at least one key is absent — when all
keys are found-or-expired, some expired, and expired reads are
disallowed, `hasKeys` submits nothing, does not block, and answers from
the found-in-storage index alone. -/
theorem sync_update_submission (dict_struct : DictionaryStructure)
    (attribute_names : List Nat) (keys : List Key)
    (default_values_columns : List (Option (List Value))) (fr : FetchResult)
    (allow_read_expired_keys returnsInKeyOrder : Bool)
    (update_index : List (Key × Nat)) (update_columns : List (List Value))
    (h1 : ¬ (keys.length = fr.expired_keys_to_fetched_columns_index.length +
        fr.found_keys_to_fetched_columns_index.length ∧
      fr.expired_keys_to_fetched_columns_index.length = 0))
    (h2 : ¬ (keys.length = fr.expired_keys_to_fetched_columns_index.length +
        fr.found_keys_to_fetched_columns_index.length ∧
      0 < fr.expired_keys_to_fetched_columns_index.length ∧
      allow_read_expired_keys = true)) :
    (getColumnsImpl dict_struct attribute_names keys default_values_columns fr
        allow_read_expired_keys returnsInKeyOrder update_index update_columns).submitted_update =
      true ∧
    (getColumnsImpl dict_struct attribute_names keys default_values_columns fr
        allow_read_expired_keys returnsInKeyOrder update_index update_columns).waited_for_update =
      true ∧
    (getColumnsImpl dict_struct attribute_names keys default_values_columns fr
        allow_read_expired_keys returnsInKeyOrder update_index update_columns).columns =
      filterRequestedColumns (makeRequestMask dict_struct attribute_names)
        (aggregateColumns keys (makeRequestMask dict_struct attribute_names)
          fr.fetched_columns fr.found_keys_to_fetched_columns_index
          update_columns update_index
          (buildDefaultValueProviders dict_struct attribute_names default_values_columns)) ∧
    (¬ keys.length = fr.found_keys_to_fetched_columns_index.length +
        fr.expired_keys_to_fetched_columns_index.length →
      (hasKeys keys fr allow_read_expired_keys update_index).submitted_update = true ∧
      (hasKeys keys fr allow_read_expired_keys update_index).waited_for_update = true) ∧
    (keys.length = fr.found_keys_to_fetched_columns_index.length +
        fr.expired_keys_to_fetched_columns_index.length →
      (hasKeys keys fr allow_read_expired_keys update_index).submitted_update = false ∧
      (hasKeys keys fr allow_read_expired_keys update_index).waited_for_update = false ∧
      (hasKeys keys fr allow_read_expired_keys update_index).column =
        (keys.map fun key =>
          (lookupIndex fr.found_keys_to_fetched_columns_index key).isSome)) := by
  refine ⟨?_, ?_, ?_, ?_, ?_⟩
  · exact (getColumnsImpl_sync_update dict_struct attribute_names keys
      default_values_columns fr allow_read_expired_keys returnsInKeyOrder
      update_index update_columns h1 h2).2.1
  · exact (getColumnsImpl_sync_update dict_struct attribute_names keys
      default_values_columns fr allow_read_expired_keys returnsInKeyOrder
      update_index update_columns h1 h2).2.2
  · exact (getColumnsImpl_sync_update dict_struct attribute_names keys
      default_values_columns fr allow_read_expired_keys returnsInKeyOrder
      update_index update_columns h1 h2).1
  · intro hnf
    exact ⟨(hasKeys_sync_update keys fr allow_read_expired_keys update_index hnf).2.1,
      (hasKeys_sync_update keys fr allow_read_expired_keys update_index hnf).2.2⟩
  · intro hnf
    have he : 0 < fr.expired_keys_to_fetched_columns_index.length := by
      rcases Nat.eq_zero_or_pos fr.expired_keys_to_fetched_columns_index.length with hz | hp
      · exact absurd ⟨by omega, hz⟩ h1
      · exact hp
    have hallow : allow_read_expired_keys = false := by
      cases hb : allow_read_expired_keys with
      | true => exact absurd ⟨by omega, he, rfl⟩ (hb ▸ h2)
      | false => rfl
    exact ⟨(hasKeys_fallthrough keys fr allow_read_expired_keys update_index hnf he
        hallow).2.1,
      (hasKeys_fallthrough keys fr allow_read_expired_keys update_index hnf he
        hallow).2.2,
      (hasKeys_fallthrough keys fr allow_read_expired_keys update_index hnf he
        hallow).1⟩

/-- Witness for the submission-policy theorem at a concrete miss. -/
theorem sync_update_submission_witness :
    (getColumnsImpl [⟨0, 0⟩] [0] [5] [none] ⟨[[]], [], [], [5]⟩ false false [] [[]]).submitted_update =
      true ∧
    (getColumnsImpl [⟨0, 0⟩] [0] [5] [none] ⟨[[]], [], [], [5]⟩ false false [] [[]]).waited_for_update =
      true :=
  ⟨(sync_update_submission [⟨0, 0⟩] [0] [5] [none] ⟨[[]], [], [], [5]⟩ false false [] [[]]
      (by decide) (by decide)).1,
   (sync_update_submission [⟨0, 0⟩] [0] [5] [none] ⟨[[]], [], [], [5]⟩ false false [] [[]]
      (by decide) (by decide)).2.1⟩

/-- Counterexample to C2 as stated: one key, expired in storage, with
expired reads disallowed — the classification is neither all-found nor
expired-only-with-allow, yet `hasKeys` neither submits the update unit
nor blocks on it. -/
theorem hasKeys_expired_sync_counterexample :
    ¬ (([7] : List Key).length =
        expiredOnlyFetchResult.expired_keys_to_fetched_columns_index.length +
          expiredOnlyFetchResult.found_keys_to_fetched_columns_index.length ∧
        expiredOnlyFetchResult.expired_keys_to_fetched_columns_index.length = 0) ∧
    (hasKeys [7] expiredOnlyFetchResult false []).submitted_update = false ∧
    (hasKeys [7] expiredOnlyFetchResult false []).waited_for_update = false := by
  decide

/-- C3 (amended): `hasKeys` agrees row-by-row with the "was found in
storage or fetched during the update" verdict of a `getColumns` run on
the same keys whenever the lookup is all-found or at least one key is
absent; the agreement breaks exactly in the expired branches. -/
theorem hasKeys_matches_found_or_fetched (keys : List Key) (fr : FetchResult)
    (allow_read_expired_keys : Bool) (update_index : List (Key × Nat))
    (hwf : StorageOk keys fr)
    (hcase : (keys.length = fr.found_keys_to_fetched_columns_index.length +
        fr.expired_keys_to_fetched_columns_index.length ∧
        fr.expired_keys_to_fetched_columns_index.length = 0) ∨
      ¬ keys.length = fr.found_keys_to_fetched_columns_index.length +
        fr.expired_keys_to_fetched_columns_index.length) :
    (hasKeys keys fr allow_read_expired_keys update_index).column =
      getColumnsFoundOrFetched keys fr allow_read_expired_keys update_index := by
  rcases hcase with hall | hnf
  · obtain ⟨ha, hb⟩ := hall
    rw [(hasKeys_all_found keys fr allow_read_expired_keys update_index ⟨ha, hb⟩).1]
    simp only [getColumnsFoundOrFetched]
    have hsync : decide (¬ (keys.length =
        fr.expired_keys_to_fetched_columns_index.length +
          fr.found_keys_to_fetched_columns_index.length ∧
        fr.expired_keys_to_fetched_columns_index.length = 0) ∧
      ¬ (keys.length = fr.expired_keys_to_fetched_columns_index.length +
          fr.found_keys_to_fetched_columns_index.length ∧
        0 < fr.expired_keys_to_fetched_columns_index.length ∧
        allow_read_expired_keys = true)) = false := by
      apply decide_eq_false
      intro hcon
      exact hcon.1 ⟨by omega, hb⟩
    rw [hsync]
    refine List.map_congr_left ?_
    intro k hk
    have hfound := StorageOk.coverage_found keys fr hwf ha hb k hk
    simp [hfound]
  · rw [(hasKeys_sync_update keys fr allow_read_expired_keys update_index hnf).1]
    simp only [getColumnsFoundOrFetched]
    have hsync : decide (¬ (keys.length =
        fr.expired_keys_to_fetched_columns_index.length +
          fr.found_keys_to_fetched_columns_index.length ∧
        fr.expired_keys_to_fetched_columns_index.length = 0) ∧
      ¬ (keys.length = fr.expired_keys_to_fetched_columns_index.length +
          fr.found_keys_to_fetched_columns_index.length ∧
        0 < fr.expired_keys_to_fetched_columns_index.length ∧
        allow_read_expired_keys = true)) = true := by
      apply decide_eq_true
      exact ⟨fun hc => hnf (by omega), fun hc => hnf (by omega)⟩
    rw [hsync]
    refine List.map_congr_left ?_
    intro k hk
    simp

/-- Witness for the agreement theorem at a concrete missing key. -/
theorem hasKeys_matches_found_or_fetched_witness :
    ¬ ([5] : List Key).length = ([] : List (Key × Nat)).length + ([] : List (Key × Nat)).length ∧
    (hasKeys [5] ⟨[[]], [], [], [5]⟩ false [(5, 0)]).column =
      getColumnsFoundOrFetched [5] ⟨[[]], [], [], [5]⟩ false [(5, 0)] :=
  ⟨by decide,
    hasKeys_matches_found_or_fetched [5] ⟨[[]], [], [], [5]⟩ false [(5, 0)]
      ⟨by decide⟩ (Or.inr (by decide))⟩

/-- Counterexample to C3 as stated: one expired key with expired reads
allowed — `hasKeys` answers `true` while the `getColumns` run on the
same keys classifies the key as neither found in storage nor fetched
during an update (the async branch merges no update results). -/
theorem hasKeys_async_disagreement_counterexample :
    (hasKeys [7] expiredOnlyFetchResult true []).column ≠
      getColumnsFoundOrFetched [7] expiredOnlyFetchResult true [] := by
  decide

/-! Column-count lemmas for the single-attribute entry point (C9). -/

theorem makeRequestMask_length (dict_struct : DictionaryStructure)
    (attribute_names : List Nat) :
    (makeRequestMask dict_struct attribute_names).length = dict_struct.length := by
  simp [makeRequestMask]

theorem aggregateColumns_length (keys : List Key) :
    ∀ (mask : List Bool) (scols : List (List Value)) (fidx : List (Key × Nat))
      (ucols : List (List Value)) (uidx : List (Key × Nat))
      (dvps : List DefaultValueProvider),
      (aggregateColumns keys mask scols fidx ucols uidx dvps).length = mask.length := by
  intro mask
  induction mask with
  | nil => intro scols fidx ucols uidx dvps; rfl
  | cons m mrest ih =>
    intro scols fidx ucols uidx dvps
    rw [show aggregateColumns keys (m :: mrest) scols fidx ucols uidx dvps =
      (if m then aggregateColumnsAttr (scols.headD []) fidx (ucols.headD []) uidx
        (dvps.headD ⟨0, none⟩) keys 0 else []) ::
        aggregateColumns keys mrest scols.tail fidx ucols.tail uidx dvps.tail from rfl]
    simp [ih]

theorem aggregateColumnsInOrderOfKeys_length (keys : List Key) :
    ∀ (mask : List Bool) (fcols : List (List Value)) (fidx eidx : List (Key × Nat)),
      (aggregateColumnsInOrderOfKeys keys mask fcols fidx eidx).length = mask.length := by
  intro mask
  induction mask with
  | nil => intro fcols fidx eidx; rfl
  | cons m mrest ih =>
    intro fcols fidx eidx
    rw [show aggregateColumnsInOrderOfKeys keys (m :: mrest) fcols fidx eidx =
      (if m then aggregateColumnsInOrderOfKeysAttr (fcols.headD []) fidx eidx keys
       else []) :: aggregateColumnsInOrderOfKeys keys mrest fcols.tail fidx eidx from rfl]
    simp [ih]

theorem filterRequestedColumns_length :
    ∀ (mask : List Bool) (cols : List (List Value)), cols.length = mask.length →
      (filterRequestedColumns mask cols).length = mask.count true := by
  intro mask
  induction mask with
  | nil => intro cols h; rfl
  | cons m mrest ih =>
    intro cols h
    cases cols with
    | nil => simp at h
    | cons col crest =>
      have h' : crest.length = mrest.length := by simpa using h
      cases m with
      | true =>
        rw [show filterRequestedColumns (true :: mrest) (col :: crest) =
          col :: filterRequestedColumns mrest crest from rfl]
        simp [List.count_cons, ih crest h']
      | false =>
        rw [show filterRequestedColumns (false :: mrest) (col :: crest) =
          filterRequestedColumns mrest crest from rfl]
        simp [List.count_cons, ih crest h']

theorem makeRequestMask_count_singleton (dict_struct : DictionaryStructure) (n : Nat) :
    (makeRequestMask dict_struct [n]).count true =
      (dict_struct.map DictionaryAttribute.name).count n := by
  induction dict_struct with
  | nil => rfl
  | cons a rest ih =>
    by_cases h : a.name = n
    · simp [makeRequestMask, List.count_cons, h] at ih ⊢
      omega
    · simp [makeRequestMask, List.count_cons, h] at ih ⊢
      omega

/-! Claim theorem: `getColumn` is the one-element case of `getColumns`
(C9). -/

/-- C9: for an attribute present in a duplicate-free schema,
`getColumns` with the singleton attribute list returns exactly one
column, and `getColumn` returns precisely that front column — the
single-attribute entry point is definitionally the one-element case of
the bulk entry point. -/
theorem getColumn_front_of_getColumns (dict_struct : DictionaryStructure)
    (attribute_name : Nat) (key_columns : List (List Key))
    (default_values_column : Option (List Value)) (fr : FetchResult)
    (allow_read_expired_keys returnsInKeyOrder : Bool)
    (update_index : List (Key × Nat)) (update_columns : List (List Value))
    (hmem : attribute_name ∈ dict_struct.map DictionaryAttribute.name)
    (hnodup : (dict_struct.map DictionaryAttribute.name).Nodup)
    (hwidth : fr.fetched_columns.length = dict_struct.length) :
    (getColumns dict_struct [attribute_name] key_columns [default_values_column] fr
      allow_read_expired_keys returnsInKeyOrder update_index update_columns).length = 1 ∧
    getColumn dict_struct attribute_name key_columns default_values_column fr
        allow_read_expired_keys returnsInKeyOrder update_index update_columns =
      (getColumns dict_struct [attribute_name] key_columns [default_values_column] fr
        allow_read_expired_keys returnsInKeyOrder update_index update_columns).head? := by
  constructor
  · have hcount : (makeRequestMask dict_struct [attribute_name]).count true = 1 := by
      rw [makeRequestMask_count_singleton]
      exact List.count_eq_one_of_mem hnodup hmem
    have hmask_len : (makeRequestMask dict_struct [attribute_name]).length =
        dict_struct.length := makeRequestMask_length dict_struct [attribute_name]
    simp only [getColumns]
    by_cases h1 : (key_columns.headD []).length =
        fr.expired_keys_to_fetched_columns_index.length +
        fr.found_keys_to_fetched_columns_index.length ∧
        fr.expired_keys_to_fetched_columns_index.length = 0
    · rw [(getColumnsImpl_all_found dict_struct [attribute_name] (key_columns.headD [])
        [default_values_column] fr allow_read_expired_keys returnsInKeyOrder
        update_index update_columns h1).1]
      cases returnsInKeyOrder with
      | true =>
        rw [if_pos rfl, filterRequestedColumns_length _ fr.fetched_columns
          (by rw [hwidth, hmask_len]), hcount]
      | false =>
        rw [if_neg (by simp), filterRequestedColumns_length _ _
          (aggregateColumnsInOrderOfKeys_length (key_columns.headD []) _
            fr.fetched_columns _ _), hcount]
    · by_cases h2 : (key_columns.headD []).length =
          fr.expired_keys_to_fetched_columns_index.length +
          fr.found_keys_to_fetched_columns_index.length ∧
          0 < fr.expired_keys_to_fetched_columns_index.length ∧
          allow_read_expired_keys = true
      · rw [(getColumnsImpl_async_refresh dict_struct [attribute_name]
          (key_columns.headD []) [default_values_column] fr allow_read_expired_keys
          returnsInKeyOrder update_index update_columns h1 h2).1]
        cases returnsInKeyOrder with
        | true =>
          rw [if_pos rfl, filterRequestedColumns_length _ fr.fetched_columns
            (by rw [hwidth, hmask_len]), hcount]
        | false =>
          rw [if_neg (by simp), filterRequestedColumns_length _ _
            (aggregateColumnsInOrderOfKeys_length (key_columns.headD []) _
              fr.fetched_columns _ _), hcount]
      · rw [(getColumnsImpl_sync_update dict_struct [attribute_name]
          (key_columns.headD []) [default_values_column] fr allow_read_expired_keys
          returnsInKeyOrder update_index update_columns h1 h2).1,
          filterRequestedColumns_length _ _
            (aggregateColumns_length (key_columns.headD []) _ fr.fetched_columns _
              update_columns _ _), hcount]
  · rfl

/-- Witness for the single-attribute entry-point theorem. -/
theorem getColumn_front_of_getColumns_witness :
    (0 : Nat) ∈ ([⟨0, 0⟩] : DictionaryStructure).map DictionaryAttribute.name ∧
    (getColumns [⟨0, 0⟩] [0] [[3]] [none] ⟨[[10]], [(3, 0)], [], []⟩
      false false [] [[]]).length = 1 :=
  ⟨by decide,
    (getColumn_front_of_getColumns [⟨0, 0⟩] 0 [[3]] none ⟨[[10]], [(3, 0)], [], []⟩
      false false [] [[]] (by decide) (by decide) (by decide)).1⟩

/-! Lemmas about the hierarchy traversal (C8). -/

theorem isInLoop_calls_le (null_value : Key) (ancestorAt : Nat → Key) (parentOf : Key → Key) :
    ∀ (fuel : Nat) (out : List Nat) (parents children_buffer : List Key),
      (isInLoop null_value ancestorAt parentOf fuel out parents children_buffer).2 ≤ fuel := by
  intro fuel
  induction fuel with
  | zero => intro out parents children_buffer; exact Nat.le_refl 0
  | succ n ih =>
    intro out parents children_buffer
    simp only [isInLoop]
    split
    · exact Nat.zero_le _
    · exact Nat.succ_le_succ (ih _ _ _)

theorem isInPass_preserves (null_value : Key) (ancestorAt : Nat → Key) :
    ∀ (out : List Nat) (parents : List Key) (parents_index new_children_index : Nat)
      (children_buffer : List Key) (j v : Nat),
      out.getD j 255 = v → v ≠ 255 →
      (isInPass null_value ancestorAt out parents parents_index new_children_index
        children_buffer).1.getD j 255 = v := by
  intro out
  induction out with
  | nil =>
    intro parents pI ncI children_buffer j v hv hne
    have h255 : v = 255 := by
      rw [← hv]
      cases j <;> rfl
    exact absurd h255 hne
  | cons o rest ih =>
    intro parents pI ncI children_buffer j v hv hne
    simp only [isInPass]
    by_cases ho : o = 255
    · rw [if_neg (fun hcon => hcon ho)]
      subst ho
      cases j with
      | zero =>
        have h255 : v = 255 := by rw [← hv]; rfl
        exact absurd h255 hne
      | succ j' =>
        have hv' : rest.getD j' 255 = v := by rwa [getD_cons_succ] at hv
        split
        · dsimp only
          rw [getD_cons_succ]
          exact ih _ _ _ _ j' v hv' hne
        · split
          · dsimp only
            rw [getD_cons_succ]
            exact ih _ _ _ _ j' v hv' hne
          · split
            · dsimp only
              rw [getD_cons_succ]
              exact ih _ _ _ _ j' v hv' hne
            · dsimp only
              rw [getD_cons_succ]
              exact ih _ _ _ _ j' v hv' hne
    · rw [if_pos ho]
      cases j with
      | zero =>
        dsimp only
        rw [getD_cons_zero]
        rwa [getD_cons_zero] at hv
      | succ j' =>
        have hv' : rest.getD j' 255 = v := by rwa [getD_cons_succ] at hv
        dsimp only
        rw [getD_cons_succ]
        exact ih _ _ _ _ j' v hv' hne

theorem isInLoop_preserves (null_value : Key) (ancestorAt : Nat → Key) (parentOf : Key → Key) :
    ∀ (fuel : Nat) (out : List Nat) (parents children_buffer : List Key) (j v : Nat),
      out.getD j 255 = v → v ≠ 255 →
      (isInLoop null_value ancestorAt parentOf fuel out parents children_buffer).1.getD j 255 =
        v := by
  intro fuel
  induction fuel with
  | zero => intro out parents children_buffer j v hv hne; exact hv
  | succ n ih =>
    intro out parents children_buffer j v hv hne
    simp only [isInLoop]
    split
    · exact isInPass_preserves null_value ancestorAt out parents 0 0 children_buffer j v
        hv hne
    · dsimp only
      exact ih _ _ _ j v
        (isInPass_preserves null_value ancestorAt out parents 0 0 children_buffer j v hv hne)
        hne

theorem isInPass_new_children_count (null_value : Key) (ancestorAt : Nat → Key) :
    ∀ (out : List Nat) (parents : List Key) (parents_index new_children_index : Nat)
      (children_buffer : List Key),
      (isInPass null_value ancestorAt out parents parents_index new_children_index
        children_buffer).2.2 =
        new_children_index +
          (isInPass null_value ancestorAt out parents parents_index new_children_index
            children_buffer).1.count 255 := by
  intro out
  induction out with
  | nil => intro parents pI ncI children_buffer; simp [isInPass]
  | cons o rest ih =>
    intro parents pI ncI children_buffer
    simp only [isInPass]
    by_cases ho : o = 255
    · rw [if_neg (fun hcon => hcon ho)]
      subst ho
      split
      · dsimp only
        rw [ih]
        simp [List.count_cons]
      · split
        · dsimp only
          rw [ih]
          simp [List.count_cons]
        · split
          · dsimp only
            rw [ih]
            simp [List.count_cons]
          · dsimp only
            rw [ih]
            simp [List.count_cons]
            omega
    · rw [if_pos ho]
      dsimp only
      rw [ih]
      have : (255 : Nat) ≠ o := fun hcon => ho hcon.symm
      simp [List.count_cons, this]

theorem isInPass_head (null_value : Key) (ancestorAt : Nat → Key)
    (out_rest : List Nat) (parents : List Key) (parents_index new_children_index : Nat)
    (children_buffer : List Key) :
    (isInPass null_value ancestorAt (255 :: out_rest) parents parents_index
        new_children_index children_buffer).1.head? =
      some (if parents.getD parents_index 0 = null_value then 0
        else if parents.getD parents_index 0 = ancestorAt parents_index then 1
        else if children_buffer.getD new_children_index 0 =
            parents.getD parents_index 0 then 1
        else 255) := by
  simp only [isInPass]
  rw [if_neg (fun hcon => hcon rfl)]
  split
  · rfl
  · split
    · rfl
    · split
      · rfl
      · rfl

/-! Claim theorem: depth bound and short-circuiting of the ancestor
search (C8). -/

/-- C8: the ancestor-of search makes at most `max_depth`
(`DBMS_HIERARCHICAL_DICTIONARY_MAX_DEPTH` in the source) bulk
`toParent` calls; a position whose verdict is computed is never changed
by later passes; an active position's verdict in a pass is decided by
exactly three short-circuit conditions on its current parent —
null-parent gives 0, ancestor-match gives 1, re-observing the
previously stored child at the write slot (loop detection) gives 1, and
otherwise the position stays active; and the number of children kept
for the next `toParent` call is exactly the number of still-active
positions after the pass. -/
theorem isIn_depth_bound_and_short_circuit (null_value : Key) (ancestorAt : Nat → Key)
    (parentOf : Key → Key) :
    (∀ (child_ids : List Key) (max_depth : Nat),
      (isInImpl null_value ancestorAt parentOf child_ids max_depth).2 ≤ max_depth) ∧
    (∀ (fuel : Nat) (out : List Nat) (parents children_buffer : List Key) (j v : Nat),
      out.getD j 255 = v → v ≠ 255 →
      (isInLoop null_value ancestorAt parentOf fuel out parents children_buffer).1.getD j 255 =
        v) ∧
    (∀ (out_rest : List Nat) (parents : List Key)
        (parents_index new_children_index : Nat) (children_buffer : List Key),
      (isInPass null_value ancestorAt (255 :: out_rest) parents parents_index
          new_children_index children_buffer).1.head? =
        some (if parents.getD parents_index 0 = null_value then 0
          else if parents.getD parents_index 0 = ancestorAt parents_index then 1
          else if children_buffer.getD new_children_index 0 =
              parents.getD parents_index 0 then 1
          else 255)) ∧
    (∀ (out : List Nat) (parents : List Key) (parents_index new_children_index : Nat)
        (children_buffer : List Key),
      (isInPass null_value ancestorAt out parents parents_index new_children_index
          children_buffer).2.2 =
        new_children_index +
          (isInPass null_value ancestorAt out parents parents_index new_children_index
            children_buffer).1.count 255) :=
  ⟨fun child_ids max_depth => isInLoop_calls_le null_value ancestorAt parentOf max_depth
      (child_ids.map fun _ => 255) child_ids (child_ids.map fun _ => 0),
   fun fuel out parents children_buffer j v hv hne =>
      isInLoop_preserves null_value ancestorAt parentOf fuel out parents children_buffer
        j v hv hne,
   fun out_rest parents pI ncI children_buffer =>
      isInPass_head null_value ancestorAt out_rest parents pI ncI children_buffer,
   fun out parents pI ncI children_buffer =>
      isInPass_new_children_count null_value ancestorAt out parents pI ncI children_buffer⟩

/-- Witness for the depth-bound theorem: a two-level chain resolves its
verdict, the call count respects the bound, and a precomputed verdict
survives the loop. -/
theorem isIn_depth_bound_witness :
    (isInImpl 0 (fun _ => 3) (fun k => k + 1) [1] 1000).2 ≤ 1000 ∧
    (isInLoop 0 (fun _ => 3) (fun k => k + 1) 5 [1, 255] [9] [0]).1.getD 0 255 = 1 :=
  ⟨(isIn_depth_bound_and_short_circuit 0 (fun _ => 3) (fun k => k + 1)).1 [1] 1000,
   (isIn_depth_bound_and_short_circuit 0 (fun _ => 3) (fun k => k + 1)).2.1 5 [1, 255]
      [9] [0] 0 1 (by decide) (by decide)⟩

end CacheDictionary
